import Mathlib

/-!
Shallow embedding of `delayedgram` (src/main.py), an Instagram upload
scheduler, together with proofs of the specification's claims.

Modelling conventions:
* `datetime.datetime` values are modelled as `Int` — seconds since an
  arbitrary epoch (the program never touches sub-second precision in a way
  visible to the claims: the only `microsecond` use sets it to `0`).
  Python's `datetime.date` of a timestamp `t` is then `t.fdiv 86400`
  (floor division, matching Python's calendar arithmetic), and
  `datetime.time` values (time of day) are seconds after midnight.
* `datetime.timedelta` values are modelled as `Int` seconds.
* Python `float` coordinates are modelled as `Option ℚ` (`none` = JSON
  `null`/Python `None`); the floats appearing in the program (`0.`, `1.0`,
  user-supplied coordinates) are exactly representable, and the only
  operation performed on them is (in)equality comparison with `0.`.
* The filesystem under one queue root is modelled as a directory listing
  (`List DirName`) plus a content map `Nat → FsEntry` indexed by record id.
  A directory name is either the decimal numeral of `n` (`DirName.num n`)
  or some other string on which Python's `int()` raises `ValueError`
  (`DirName.other s`).
* Fallible Python code (uncaught exceptions) is modelled with `Except Err`.
  Network effects of `instagrapi` (login, location search, photo/album
  upload) and `os.rename` are external; whether each raises in a given
  cycle is an input flag in `NetEnv`.
-/

namespace Delayedgram

/-- Seconds in one day, the granularity of `datetime.replace` on the date part. -/
def secondsPerDay : Int := 86400

/-- `now.replace(hour=h, minute=m, second=s, microsecond=0)`: keep today's
date, substitute the given time of day `tod` (seconds after midnight). -/
def replaceTimeOfDay (now : Int) (tod : Int) : Int :=
  secondsPerDay * (Int.fdiv now secondsPerDay) + tod

/-- `next_upload_time` (src/main.py lines 15-24): the next allowed upload
time given the optional last upload time, the daily target time of day and
the minimum delay between posts.  `now` is the wall clock
(`dt.datetime.now()`), passed explicitly to keep the function pure. -/
def next_upload_time (now : Int) (last_upload_time : Option Int)
    (upload_time : Int) (upload_delay : Int) : Int :=
  let next_upload := replaceTimeOfDay now upload_time + upload_delay
  match last_upload_time with
  | none => next_upload
  | some l =>
      let potential_next_upload := l + upload_delay
      if potential_next_upload > next_upload then potential_next_upload
      else next_upload

/-- `Config` (src/main.py lines 27-32); only the fields the scheduling and
dispatch logic read.  The two directory paths are represented by the
`RepoState` below rather than by strings. -/
structure Config where
  default_upload_delta : Int
  default_upload_time : Int
  check_interval : Int
deriving DecidableEq, Repr

/-- `InstaUploadMeta` (src/main.py lines 83-87): the metadata blob
`meta.json` of one post record. -/
structure InstaUploadMeta where
  caption : String
  loc_lat : Option ℚ
  loc_long : Option ℚ
  upload_at : Option Int
deriving DecidableEq, Repr

/-- `InstaUpload` (src/main.py lines 40-47): one loaded post record. -/
structure InstaUpload where
  id : Nat
  meta : InstaUploadMeta
  images : List String
deriving DecidableEq, Repr

/-- `InstaUpload.NEW_OFFSET` (src/main.py line 43). -/
def NEW_OFFSET : Nat := 1

/-- `InstaUpload.validate_post` (src/main.py lines 79-80):
`len(self.images) > 0 and self.meta.loc_lat != 0. and self.meta.loc_long != 0.`.
In Python, `None != 0.` is `True`, so a `null` coordinate passes the
`!= 0.` test. -/
def validate_post (u : InstaUpload) : Bool :=
  decide (0 < u.images.length) &&
  decide (u.meta.loc_lat ≠ some 0) &&
  decide (u.meta.loc_long ≠ some 0)

/-! ## Claims C1-C3 -/

/-- C1: `nextUploadTime` returns (today's date combined with the target
time-of-day) plus `minDelay`, unless `lastUploadTime` is present and
`lastUploadTime + minDelay` is strictly greater than that candidate, in
which case it returns `lastUploadTime + minDelay`.  When `lastUploadTime`
is absent it returns today's target time plus `minDelay` regardless of the
current wall-clock time, and the result may lie in the past (witnessed in
the last conjunct at `now = 50000` seconds past midnight of epoch day 0
with target time midnight and zero delay). -/
theorem c1_next_upload_time (now : Int) (last : Option Int)
    (tod delay : Int) :
    (next_upload_time now last tod delay =
      match last with
      | none => replaceTimeOfDay now tod + delay
      | some l =>
          if replaceTimeOfDay now tod + delay < l + delay then l + delay
          else replaceTimeOfDay now tod + delay) ∧
    (next_upload_time now none tod delay = replaceTimeOfDay now tod + delay) ∧
    (next_upload_time 50000 none 0 0 < 50000) := by
  refine ⟨?_, rfl, by decide⟩
  cases last with
  | none => rfl
  | some l =>
      simp only [next_upload_time, gt_iff_lt]

/-- C2: `validateForPublish` is true iff the image list is non-empty and
both coordinates differ from `0.` (a `null` coordinate counts as non-zero,
since Python's `None != 0.` is `True`).  Concretely: no images is rejected
for every metadata; one image with both coordinates `0.0` is rejected; one
image with `(lat=1.0, long=0.0)` is rejected; one image with both
coordinates `null` is accepted. -/
theorem c2_validate_post (u : InstaUpload) :
    (validate_post u = true ↔
      (u.images ≠ [] ∧ u.meta.loc_lat ≠ some 0 ∧ u.meta.loc_long ≠ some 0)) ∧
    (∀ i : Nat, ∀ m : InstaUploadMeta,
      validate_post ⟨i, m, []⟩ = false) ∧
    (validate_post ⟨0, ⟨"", some 0, some 0, none⟩, ["a.jpg"]⟩ = false) ∧
    (validate_post ⟨0, ⟨"", some 1, some 0, none⟩, ["a.jpg"]⟩ = false) ∧
    (validate_post ⟨0, ⟨"", none, none, none⟩, ["a.jpg"]⟩ = true) := by
  refine ⟨?_, fun i m => by simp [validate_post], by decide, by decide, by decide⟩
  simp [validate_post, List.length_pos, and_assoc]

/-- C3 counterexample: the claim says a record with one image, a `null`
latitude and a non-null longitude is rejected for every value of the
longitude; but at longitude `1.0` the code accepts it, because
`None != 0.` is `True` in Python. -/
theorem c3_counterexample :
    validate_post ⟨0, ⟨"", none, some 1, none⟩, ["a.jpg"]⟩ = true := by
  decide

/-- C3 amended: for a record with at least one image in which exactly one
coordinate is `null` and the other is non-null, `validateForPublish`
returns false iff the non-null coordinate equals zero (so a half-set
location with a non-zero coordinate is accepted, not rejected). -/
theorem c3_half_set_location (i : Nat) (cap : String) (t : Option Int)
    (imgs : List String) (q : ℚ) (himgs : imgs ≠ []) :
    (validate_post ⟨i, ⟨cap, none, some q, t⟩, imgs⟩ = false ↔ q = 0) ∧
    (validate_post ⟨i, ⟨cap, some q, none, t⟩, imgs⟩ = false ↔ q = 0) := by
  constructor <;>
    simp [validate_post, List.length_pos, himgs]

/-- Witness for `c3_half_set_location` at a concrete record. -/
theorem c3_half_set_location_witness :
    (["a.jpg"] : List String) ≠ [] ∧
    (validate_post ⟨0, ⟨"", none, some 0, none⟩, ["a.jpg"]⟩ = false ↔ (0 : ℚ) = 0) := by
  refine ⟨by decide, ?_⟩
  exact (c3_half_set_location 0 "" none ["a.jpg"] 0 (by decide)).1

/-! ## Directory-backed queue -/

/-- A name in a directory listing (`os.listdir`): either the decimal
numeral of `n`, or some other string on which `int()` raises
`ValueError`. -/
inductive DirName
  | num (n : Nat)
  | other (s : String)
deriving DecidableEq, Repr

/-- Content of the record directory for a given id: absent (or missing
`meta.json`), present with a malformed `meta.json`, or present with a
valid metadata blob and the listing of its `ims` subdirectory. -/
inductive FsEntry
  | missing
  | malformed
  | good (meta : InstaUploadMeta) (images : List String)

/-- Uncaught Python exceptions the modelled code can raise. -/
inductive Err
  | valueError (s : String)
  | notFound (id : Nat)
  | parseError (id : Nat)
  | typeError
  | loginError
deriving DecidableEq, Repr

/-- `int(upload_fp)` on a directory name: raises `ValueError` when the
name is not numeric. -/
def parseDirName : DirName → Except Err Nat
  | .num n => .ok n
  | .other s => .error (.valueError s)

/-- `InstaUpload.load_from_dir` (src/main.py lines 63-68): read
`meta.json` (raising `FileNotFoundError` or a pydantic validation error)
and list the image subdirectory. -/
def load_from_dir (fs : Nat → FsEntry) (id : Nat) : Except Err InstaUpload :=
  match fs id with
  | .missing => .error (.notFound id)
  | .malformed => .error (.parseError id)
  | .good m ims => .ok ⟨id, m, ims⟩

/-- One iteration of the loop in `load_all_from_parent_dir`:
`id = int(upload_fp)` then `load_from_dir(id, dir_fp)`. -/
def load_one (fs : Nat → FsEntry) (d : DirName) : Except Err InstaUpload :=
  match parseDirName d with
  | .error e => .error e
  | .ok id => load_from_dir fs id

/-- The accumulation loop of `load_all_from_parent_dir` (src/main.py
lines 72-75): load each listed name in order, aborting at the first
exception. -/
def load_list (fs : Nat → FsEntry) : List DirName → Except Err (List InstaUpload)
  | [] => .ok []
  | d :: ds =>
      match load_one fs d with
      | .error e => .error e
      | .ok u =>
          match load_list fs ds with
          | .error e => .error e
          | .ok us => .ok (u :: us)

/-- The sort key of `uploads.sort(key=lambda x: x.id)`. -/
def idLe (a b : InstaUpload) : Bool := a.id ≤ b.id

/-- `InstaUpload.load_all_from_parent_dir` (src/main.py lines 70-77):
load every listed subdirectory, then sort ascending by id. -/
def load_all_from_parent_dir (fs : Nat → FsEntry) (listing : List DirName) :
    Except Err (List InstaUpload) :=
  match load_list fs listing with
  | .error e => .error e
  | .ok uploads => .ok (uploads.mergeSort idLe)

/-- State of the two queue roots: the pending (`unprocessed_dir_fp`) and
published (`processed_dir_fp`) directory listings, and the record
contents addressed by id. -/
structure RepoState where
  pending : List DirName
  published : List DirName
  fs : Nat → FsEntry

/-- Inversion for `load_list` on a cons cell. -/
theorem load_list_cons_ok {fs : Nat → FsEntry} {d : DirName}
    {ds : List DirName} {us : List InstaUpload} :
    load_list fs (d :: ds) = .ok us ↔
      ∃ u us0, load_one fs d = .ok u ∧ load_list fs ds = .ok us0 ∧
        us = u :: us0 := by
  cases h1 : load_one fs d with
  | error e => simp [load_list, h1]
  | ok u =>
      cases h2 : load_list fs ds with
      | error e => simp [load_list, h1, h2]
      | ok us0 =>
          simp only [load_list, h1, h2]
          constructor
          · rintro h
            exact ⟨u, us0, rfl, rfl, (Except.ok.injEq _ _ ▸ h).symm⟩
          · rintro ⟨u1, us1, hu, hus, rfl⟩
            cases hu; cases hus; rfl

/-- Loading a permuted listing succeeds with a permuted result: each name
is loaded independently, so only the multiset of names matters up to
permutation of the loaded records. -/
theorem load_list_perm (fs : Nat → FsEntry) {l1 l2 : List DirName}
    (h : l1.Perm l2) :
    ∀ {us1 : List InstaUpload}, load_list fs l1 = .ok us1 →
      ∃ us2, load_list fs l2 = .ok us2 ∧ us1.Perm us2 := by
  induction h with
  | nil =>
      intro us1 h1
      refine ⟨[], rfl, ?_⟩
      simp only [load_list] at h1
      cases h1
      exact List.Perm.refl _
  | cons x h ih =>
      intro us1 h1
      rcases load_list_cons_ok.1 h1 with ⟨u, us0, hu, hus, rfl⟩
      rcases ih hus with ⟨us2, hus2, hperm⟩
      exact ⟨u :: us2, load_list_cons_ok.2 ⟨u, us2, hu, hus2, rfl⟩,
        hperm.cons u⟩
  | swap x y l =>
      intro us1 h1
      rcases load_list_cons_ok.1 h1 with ⟨uy, usy, huy, husy, rfl⟩
      rcases load_list_cons_ok.1 husy with ⟨ux, usx, hux, husx, rfl⟩
      refine ⟨ux :: uy :: usx, ?_, List.Perm.swap ux uy usx⟩
      exact load_list_cons_ok.2 ⟨ux, uy :: usx, hux,
        load_list_cons_ok.2 ⟨uy, usx, huy, husx, rfl⟩, rfl⟩
  | trans h12 h23 ih12 ih23 =>
      intro us1 h1
      rcases ih12 h1 with ⟨us2, h2, p12⟩
      rcases ih23 h2 with ⟨us3, h3, p23⟩
      exact ⟨us3, h3, p12.trans p23⟩

/-- If any listed name fails to load (non-numeric name, missing or
malformed metadata), the whole enumeration fails with the first such
error. -/
theorem load_list_error (fs : Nat → FsEntry) :
    ∀ (l : List DirName), (∃ d ∈ l, ∃ e, load_one fs d = .error e) →
      ∃ e, load_list fs l = .error e := by
  intro l
  induction l with
  | nil => rintro ⟨d, hd, _⟩; exact absurd hd (List.not_mem_nil d)
  | cons a l ih =>
      rintro ⟨d, hd, e0, he0⟩
      cases ha : load_one fs a with
      | error e => exact ⟨e, by simp [load_list, ha]⟩
      | ok u =>
          have hdl : d ∈ l := by
            rcases List.mem_cons.1 hd with rfl | h
            · rw [ha] at he0; cases he0
            · exact h
          rcases ih ⟨d, hdl, e0, he0⟩ with ⟨e, he⟩
          exact ⟨e, by simp [load_list, ha, he]⟩

/-- The sort key is transitive. -/
theorem idLe_trans : ∀ a b c : InstaUpload,
    idLe a b = true → idLe b c = true → idLe a c = true := by
  intro a b c hab hbc
  simp only [idLe, decide_eq_true_eq] at *
  omega

/-- The sort key is total. -/
theorem idLe_total : ∀ a b : InstaUpload, (idLe a b || idLe b a) = true := by
  intro a b
  simp only [idLe, Bool.or_eq_true, decide_eq_true_eq]
  omega

/-- A weakly id-sorted list of records with pairwise-distinct ids is
strictly id-sorted. -/
theorem pairwise_id_lt_of_le_nodup {l : List InstaUpload}
    (hs : l.Pairwise (fun a b => a.id ≤ b.id))
    (hn : (l.map (fun u => u.id)).Nodup) :
    l.Pairwise (fun a b => a.id < b.id) := by
  have hne : l.Pairwise (fun a b => a.id ≠ b.id) := List.pairwise_map.1 hn
  exact (hs.and hne).imp fun h => lt_of_le_of_ne h.1 h.2

/-- C7: `loadAllOrdered` returns the loaded records sorted ascending by
id, and — given that ids are pairwise distinct — the result does not
depend on the order in which the filesystem enumerated the
subdirectories: any permuted listing that loads successfully yields the
identical sorted sequence. -/
theorem c7_load_all_ordered (fs : Nat → FsEntry) (listing : List DirName)
    (ups : List InstaUpload)
    (h : load_all_from_parent_dir fs listing = .ok ups) :
    List.Pairwise (fun a b => a.id ≤ b.id) ups ∧
    ∀ (listing2 : List DirName) (ups2 : List InstaUpload),
      listing.Perm listing2 →
      load_all_from_parent_dir fs listing2 = .ok ups2 →
      (ups.map (fun u => u.id)).Nodup → ups2 = ups := by
  cases hl : load_list fs listing with
  | error e => simp [load_all_from_parent_dir, hl] at h
  | ok us =>
      simp only [load_all_from_parent_dir, hl] at h
      cases h
      have hsorted : (us.mergeSort idLe).Pairwise (fun a b => a.id ≤ b.id) :=
        (List.sorted_mergeSort idLe_trans idLe_total us).imp fun hab => by
          simpa [idLe] using hab
      refine ⟨hsorted, ?_⟩
      intro listing2 ups2 hperm h2 hnodup
      cases hl2 : load_list fs listing2 with
      | error e => simp [load_all_from_parent_dir, hl2] at h2
      | ok us2 =>
          simp only [load_all_from_parent_dir, hl2] at h2
          cases h2
          rcases load_list_perm fs hperm hl with ⟨us2x, hl2x, pux⟩
          rw [hl2] at hl2x
          cases hl2x
          have hp : (us2.mergeSort idLe).Perm (us.mergeSort idLe) :=
            ((List.mergeSort_perm us2 idLe).trans pux.symm).trans
              (List.mergeSort_perm us idLe).symm
          have hn2 : ((us2.mergeSort idLe).map (fun u => u.id)).Nodup :=
            ((hp.map (fun u => u.id)).symm).nodup hnodup
          have hs1 : (us.mergeSort idLe).Pairwise (fun a b => a.id < b.id) :=
            pairwise_id_lt_of_le_nodup hsorted hnodup
          have hs2 : (us2.mergeSort idLe).Pairwise (fun a b => a.id < b.id) :=
            pairwise_id_lt_of_le_nodup
              ((List.sorted_mergeSort idLe_trans idLe_total us2).imp
                fun hab => by simpa [idLe] using hab) hn2
          haveI : IsAntisymm InstaUpload (fun a b => a.id < b.id) :=
            ⟨fun a b h1 h2 => absurd (lt_trans h1 h2) (lt_irrefl _)⟩
          exact List.eq_of_perm_of_sorted hp hs2 hs1

/-- The toy two-record content map used by the `c7` witness. -/
def fsTwo : Nat → FsEntry :=
  fun i => if i ≤ 1 then .good ⟨"", none, none, some 0⟩ [] else .missing

/-- The records `fsTwo` loads. -/
def upTwo (i : Nat) : InstaUpload := ⟨i, ⟨"", none, none, some 0⟩, []⟩

/-- `load_all_from_parent_dir` on `fsTwo` returns the two records in id
order. -/
theorem load_all_fsTwo :
    load_all_from_parent_dir fsTwo [.num 0, .num 1] =
      .ok [upTwo 0, upTwo 1] := by
  have hl : load_list fsTwo [.num 0, .num 1] = .ok [upTwo 0, upTwo 1] := rfl
  have hms : ([upTwo 0, upTwo 1].mergeSort idLe) = [upTwo 0, upTwo 1] :=
    List.mergeSort_of_sorted (by simp [idLe, upTwo])
  simp only [load_all_from_parent_dir, hl, hms]

/-- Witness for `c7_load_all_ordered` on the concrete two-record store. -/
theorem c7_witness :
    load_all_from_parent_dir fsTwo [.num 0, .num 1] = .ok [upTwo 0, upTwo 1] ∧
    List.Pairwise (fun a b => a.id ≤ b.id) [upTwo 0, upTwo 1] :=
  ⟨load_all_fsTwo, (c7_load_all_ordered _ _ _ load_all_fsTwo).1⟩

/-! ## Dispatch cycle (`try_upload`, src/main.py lines 132-156) -/

/-- Outcomes of the external effects touched by one dispatch cycle:
whether `Client.login` (run by the `InstaClient` constructor),
`location_search`/`location_complete`, the `photo_upload`/`album_upload`
call and `os.rename` would raise this cycle.  `now` is
`dt.datetime.now()`. -/
structure NetEnv where
  now : Int
  loginOk : Bool
  locationOk : Bool
  publishOk : Bool
  renameOk : Bool

/-- `InstaClient.upload_post` (src/main.py lines 108-127) completes
without raising: location search runs only when both coordinates are
non-null, then the photo/album upload itself must succeed. -/
def upload_post_ok (env : NetEnv) (u : InstaUpload) : Bool :=
  (if u.meta.loc_lat.isSome && u.meta.loc_long.isSome then env.locationOk
   else true) && env.publishOk

/-- The `os.rename` of a record directory from the pending root to the
published root (src/main.py lines 150-153). -/
def relocate (st : RepoState) (id : Nat) : RepoState :=
  { st with pending := st.pending.erase (.num id),
            published := st.published ++ [.num id] }

/-- Result of one `try_upload` call: the Python return value (`None` or a
`SleepFor` timedelta) or the uncaught exception aborting the invocation,
the final state of the two queue roots, and how many collaborator publish
calls completed. -/
structure CycleOutcome where
  result : Except Err (Option Int)
  state : RepoState
  publishes : Nat

/-- `try_upload` (src/main.py lines 132-156).  Control flow, in source
order: enumerate the pending queue (uncaught errors propagate); empty
queue returns `None`; take the head record; compare `upload_at` with now
(`None > datetime` raises `TypeError`); not due returns the remaining
wait plus one second; invalid post returns `None`; construct `InstaClient`
(login — OUTSIDE the `try` block, so a raise propagates); inside the
`try`: `upload_post` then `os.rename`, any raise is caught and returns
`None`. -/
def try_upload (env : NetEnv) (st : RepoState) : CycleOutcome :=
  match load_all_from_parent_dir st.fs st.pending with
  | .error e => ⟨.error e, st, 0⟩
  | .ok [] => ⟨.ok none, st, 0⟩
  | .ok (upload :: _) =>
      match upload.meta.upload_at with
      | none => ⟨.error .typeError, st, 0⟩
      | some t =>
          if env.now < t then ⟨.ok (some (t - env.now + 1)), st, 0⟩
          else if !(validate_post upload) then ⟨.ok none, st, 0⟩
          else if !env.loginOk then ⟨.error .loginError, st, 0⟩
          else if !(upload_post_ok env upload) then ⟨.ok none, st, 0⟩
          else if !env.renameOk then ⟨.ok none, st, 1⟩
          else ⟨.ok none, relocate st upload.id, 1⟩

/-- The sleep computation of the `--cron` branch (src/main.py lines
205-210): a `None` cycle result sleeps the full check interval, a
returned wait is capped at the check interval. -/
def cron_sleep_for (r : Option Int) (check_interval : Int) : Int :=
  match r with
  | none => check_interval
  | some s => min s check_interval

/-- C8: an error during queue enumeration — a non-numeric-named
subdirectory, or a missing or malformed metadata blob of any listed
record — is not caught by the dispatch cycle: `try_upload` aborts with
that error, no state changes and no publish happens. -/
theorem c8_enumeration_error_fatal (env : NetEnv) (st : RepoState)
    (d : DirName) (hd : d ∈ st.pending)
    (hbad : (∃ s, d = .other s) ∨
      (∃ i, d = .num i ∧ (st.fs i = .missing ∨ st.fs i = .malformed))) :
    ∃ e, load_all_from_parent_dir st.fs st.pending = .error e ∧
      try_upload env st = ⟨.error e, st, 0⟩ := by
  have hone : ∃ e, load_one st.fs d = .error e := by
    rcases hbad with ⟨s, rfl⟩ | ⟨i, rfl, hfs⟩
    · exact ⟨.valueError s, rfl⟩
    · rcases hfs with hfs | hfs
      · exact ⟨.notFound i, by simp [load_one, parseDirName, load_from_dir, hfs]⟩
      · exact ⟨.parseError i, by simp [load_one, parseDirName, load_from_dir, hfs]⟩
  rcases hone with ⟨e0, he0⟩
  rcases load_list_error st.fs st.pending ⟨d, hd, e0, he0⟩ with ⟨e, he⟩
  refine ⟨e, ?_, ?_⟩
  · simp [load_all_from_parent_dir, he]
  · simp [try_upload, load_all_from_parent_dir, he]

/-- Witness for `c8_enumeration_error_fatal`: a queue holding the single
non-numeric directory name "stray". -/
theorem c8_witness :
    ∃ e, load_all_from_parent_dir (fun _ => FsEntry.missing) [.other "stray"] =
        .error e ∧
      try_upload ⟨0, true, true, true, true⟩
          ⟨[.other "stray"], [], fun _ => FsEntry.missing⟩ =
        ⟨.error e, ⟨[.other "stray"], [], fun _ => FsEntry.missing⟩, 0⟩ :=
  c8_enumeration_error_fatal ⟨0, true, true, true, true⟩
    ⟨[.other "stray"], [], fun _ => FsEntry.missing⟩ (.other "stray")
    (List.mem_singleton.2 rfl) (Or.inl ⟨"stray", rfl⟩)

/-- C9: when the head pending record has a null `scheduledAt`, the
due-check comparison `upload_at > now` raises `TypeError` and the cycle
aborts; the record is not treated as always-ready — nothing is published
and the state is untouched. -/
theorem c9_null_scheduled_at_fatal (env : NetEnv) (st : RepoState)
    (u : InstaUpload) (rest : List InstaUpload)
    (hload : load_all_from_parent_dir st.fs st.pending = .ok (u :: rest))
    (hnull : u.meta.upload_at = none) :
    try_upload env st = ⟨.error .typeError, st, 0⟩ := by
  simp [try_upload, hload, hnull]

/-- Witness for `c9_null_scheduled_at_fatal` on a one-record queue whose
record has `upload_at = null`. -/
theorem c9_witness :
    try_upload ⟨0, true, true, true, true⟩
        ⟨[.num 0], [], fun _ => .good ⟨"", none, none, none⟩ ["a.jpg"]⟩ =
      ⟨.error .typeError,
        ⟨[.num 0], [], fun _ => .good ⟨"", none, none, none⟩ ["a.jpg"]⟩, 0⟩ := by
  have hload : load_all_from_parent_dir
      (fun _ => FsEntry.good ⟨"", none, none, none⟩ ["a.jpg"]) [.num 0] =
      .ok [⟨0, ⟨"", none, none, none⟩, ["a.jpg"]⟩] := by
    have hl : load_list (fun _ => FsEntry.good ⟨"", none, none, none⟩ ["a.jpg"])
        [.num 0] = .ok [⟨0, ⟨"", none, none, none⟩, ["a.jpg"]⟩] := rfl
    have hms : ([(⟨0, ⟨"", none, none, none⟩, ["a.jpg"]⟩ : InstaUpload)].mergeSort idLe) =
        [⟨0, ⟨"", none, none, none⟩, ["a.jpg"]⟩] :=
      List.mergeSort_of_sorted (by simp)
    simp only [load_all_from_parent_dir, hl, hms]
  exact c9_null_scheduled_at_fatal _ _ _ _ hload rfl

/-- Loading a queue whose listing is the single numeric name `i` backed
by a good entry yields that one record. -/
theorem load_all_singleton (fs : Nat → FsEntry) (i : Nat)
    (m : InstaUploadMeta) (ims : List String) (h : fs i = .good m ims) :
    load_all_from_parent_dir fs [.num i] = .ok [⟨i, m, ims⟩] := by
  have hl : load_list fs [.num i] = .ok [⟨i, m, ims⟩] := by
    simp [load_list, load_one, parseDirName, load_from_dir, h]
  have hms : ([(⟨i, m, ims⟩ : InstaUpload)].mergeSort idLe) = [⟨i, m, ims⟩] :=
    List.mergeSort_of_sorted (by simp)
  simp only [load_all_from_parent_dir, hl, hms]

/-- C5: when the head pending record is scheduled strictly after now, the
cycle publishes nothing, relocates nothing, returns the wait
`scheduledAt - now + 1` second, and in loop mode the process sleeps
`min` of that wait and the configured check interval. -/
theorem c5_not_due (env : NetEnv) (st : RepoState) (u : InstaUpload)
    (rest : List InstaUpload) (t ci : Int)
    (hload : load_all_from_parent_dir st.fs st.pending = .ok (u :: rest))
    (ht : u.meta.upload_at = some t) (hfut : env.now < t) :
    try_upload env st = ⟨.ok (some (t - env.now + 1)), st, 0⟩ ∧
    cron_sleep_for (some (t - env.now + 1)) ci = min (t - env.now + 1) ci := by
  exact ⟨by simp [try_upload, hload, ht, hfut], rfl⟩

/-- Witness for `c5_not_due`: one record scheduled at `t = 100`, clock at
`0`, check interval `50`. -/
theorem c5_witness :
    try_upload ⟨0, true, true, true, true⟩
        ⟨[.num 0], [], fun _ => .good ⟨"", none, none, some 100⟩ ["a.jpg"]⟩ =
      ⟨.ok (some (100 - 0 + 1)),
        ⟨[.num 0], [], fun _ => .good ⟨"", none, none, some 100⟩ ["a.jpg"]⟩, 0⟩ ∧
    cron_sleep_for (some (100 - 0 + 1)) 50 = min (100 - 0 + 1) 50 :=
  c5_not_due ⟨0, true, true, true, true⟩
    ⟨[.num 0], [], fun _ => .good ⟨"", none, none, some 100⟩ ["a.jpg"]⟩
    ⟨0, ⟨"", none, none, some 100⟩, ["a.jpg"]⟩ [] 100 50
    (load_all_singleton _ 0 ⟨"", none, none, some 100⟩ ["a.jpg"] rfl)
    rfl (by decide)

/-- C10: whenever the head pending record is due, a cycle that returns at
all (rather than raising) returns `None`, so loop mode sleeps the full
check interval after it; a shorter wait is returned only by the not-due
branch, in which case it is exactly `scheduledAt - now + 1`. -/
theorem c10_due_cycle_no_wait (env : NetEnv) (st : RepoState) (ci : Int) :
    (∀ (u : InstaUpload) (rest : List InstaUpload) (t : Int),
      load_all_from_parent_dir st.fs st.pending = .ok (u :: rest) →
      u.meta.upload_at = some t → t ≤ env.now →
      ∀ r, (try_upload env st).result = .ok r →
        r = none ∧ cron_sleep_for r ci = ci) ∧
    (∀ w, (try_upload env st).result = .ok (some w) →
      ∃ (u : InstaUpload) (rest : List InstaUpload) (t : Int),
        load_all_from_parent_dir st.fs st.pending = .ok (u :: rest) ∧
        u.meta.upload_at = some t ∧ env.now < t ∧ w = t - env.now + 1) := by
  constructor
  · intro u rest t hload ht htle r hr
    have hne : ¬ (env.now < t) := by omega
    simp only [try_upload, hload, ht, hne, if_false] at hr
    have hrn : r = none := by
      split at hr
      · exact (Except.ok.inj hr).symm
      · split at hr
        · exact absurd hr (by simp)
        · split at hr
          · exact (Except.ok.inj hr).symm
          · split at hr
            · exact (Except.ok.inj hr).symm
            · exact (Except.ok.inj hr).symm
    exact ⟨hrn, by rw [hrn]; rfl⟩
  · intro w hw
    cases hload : load_all_from_parent_dir st.fs st.pending with
    | error e => simp [try_upload, hload] at hw
    | ok ups =>
        cases ups with
        | nil => simp [try_upload, hload] at hw
        | cons u rest =>
            cases ht : u.meta.upload_at with
            | none => simp [try_upload, hload, ht] at hw
            | some t =>
                by_cases hlt : env.now < t
                · refine ⟨u, rest, t, rfl, ht, hlt, ?_⟩
                  simp only [try_upload, hload, ht, if_pos hlt] at hw
                  simpa using hw.symm
                · exfalso
                  simp only [try_upload, hload, ht, if_neg hlt] at hw
                  split at hw
                  · simp at hw
                  · split at hw
                    · simp at hw
                    · split at hw
                      · simp at hw
                      · split at hw <;> simp at hw

/-- Witness for `c10_due_cycle_no_wait`: a due, invalid (no-image) head
record; the cycle returns `None` and loop mode sleeps the whole check
interval. -/
theorem c10_witness :
    (none : Option Int) = none ∧
    cron_sleep_for none 50 = 50 := by
  have hload := load_all_singleton
    (fun _ => FsEntry.good ⟨"", none, none, some 0⟩ []) 0
    ⟨"", none, none, some 0⟩ [] rfl
  have hres : (try_upload ⟨100, true, true, true, true⟩
      ⟨[.num 0], [], fun _ => FsEntry.good ⟨"", none, none, some 0⟩ []⟩).result =
      .ok none := by
    simp [try_upload, hload, validate_post]
  exact (c10_due_cycle_no_wait ⟨100, true, true, true, true⟩
    ⟨[.num 0], [], fun _ => FsEntry.good ⟨"", none, none, some 0⟩ []⟩ 50).1
    ⟨0, ⟨"", none, none, some 0⟩, []⟩ [] 0 hload rfl (by decide) none hres

/-- A due, valid one-record queue used by the C6 theorems: one image,
location `(1.0, 1.0)`, scheduled at time `0`. -/
def stDue : RepoState :=
  ⟨[.num 0], [], fun _ => .good ⟨"", some 1, some 1, some 0⟩ ["a.jpg"]⟩

/-- The record `stDue` holds. -/
def upDue : InstaUpload := ⟨0, ⟨"", some 1, some 1, some 0⟩, ["a.jpg"]⟩

/-- `stDue` loads to the single record `upDue`. -/
theorem load_all_stDue :
    load_all_from_parent_dir stDue.fs stDue.pending = .ok [upDue] :=
  load_all_singleton _ 0 ⟨"", some 1, some 1, some 0⟩ ["a.jpg"] rfl

/-- C6 counterexample: the claim says any exception raised during
authentication is caught and logged and the cycle ends without action;
but `cli = InstaClient(...)` — which performs the login — stands outside
the `try` block, so with a due, valid head record and a failing login the
cycle aborts with an uncaught exception (`.error` result) instead of
returning normally (`.ok none`). -/
theorem c6_counterexample :
    try_upload ⟨100, false, true, true, true⟩ stDue =
      ⟨.error .loginError, stDue, 0⟩ ∧
    (Except.error Err.loginError : Except Err (Option Int)) ≠ .ok none := by
  constructor
  · simp [try_upload, load_all_stDue, upDue, validate_post]
  · simp

/-- C6 amended: with a due, valid head record, an exception during
location resolution or the publish call — and likewise one during the
relocate rename — is caught and logged, the cycle ends returning `None`,
and the record remains fully in the pending set, untouched, to be
retried; an exception during authentication, by contrast, is NOT caught
and aborts the invocation (the record again remains fully in pending).
In every case the final state is either exactly the initial one or
exactly the relocated one: no partially moved state between pending and
published is observable. -/
theorem c6_publish_failure_handling (env : NetEnv) (st : RepoState)
    (u : InstaUpload) (rest : List InstaUpload) (t : Int)
    (hload : load_all_from_parent_dir st.fs st.pending = .ok (u :: rest))
    (ht : u.meta.upload_at = some t) (hdue : t ≤ env.now)
    (hvalid : validate_post u = true) :
    (env.loginOk = true → upload_post_ok env u = false →
      try_upload env st = ⟨.ok none, st, 0⟩) ∧
    (env.loginOk = true → upload_post_ok env u = true → env.renameOk = false →
      try_upload env st = ⟨.ok none, st, 1⟩) ∧
    (env.loginOk = false → try_upload env st = ⟨.error .loginError, st, 0⟩) ∧
    ((try_upload env st).state = st ∨
      (try_upload env st).state = relocate st u.id) := by
  have hne : ¬ (env.now < t) := by omega
  refine ⟨?_, ?_, ?_, ?_⟩
  · intro hlog hpub
    simp [try_upload, hload, ht, hne, hvalid, hlog, hpub]
  · intro hlog hpub hren
    simp [try_upload, hload, ht, hne, hvalid, hlog, hpub, hren]
  · intro hlog
    simp [try_upload, hload, ht, hne, hvalid, hlog]
  · simp only [try_upload, hload, ht, if_neg hne, hvalid]
    split
    · exact Or.inl rfl
    · split
      · exact Or.inl rfl
      · split
        · exact Or.inl rfl
        · split
          · exact Or.inl rfl
          · exact Or.inr rfl

/-- Witness for `c6_publish_failure_handling`: a failing publish call on
the due, valid one-record queue is caught and leaves the state
unchanged. -/
theorem c6_witness :
    try_upload ⟨100, true, true, false, true⟩ stDue = ⟨.ok none, stDue, 0⟩ :=
  (c6_publish_failure_handling ⟨100, true, true, false, true⟩ stDue upDue [] 0
      load_all_stDue rfl (by decide) (by decide)).1 rfl (by decide)

/-! ## The "new" action (src/main.py lines 50-61 and 195-201) -/

/-- `new_id = newest_upload.id + InstaUpload.NEW_OFFSET if newest_upload
is not None else 0` (src/main.py line 56). -/
def new_id_of (newest_upload : Option InstaUpload) : Nat :=
  match newest_upload with
  | some u => u.id + NEW_OFFSET
  | none => 0

/-- `InstaUpload.write_empty_upload` (src/main.py lines 50-61): compute
the schedule and the fresh id, create the record directory with an empty
image subfolder and a metadata blob with empty caption and zero-valued
location.  The filesystem writes themselves are modelled as always
succeeding (an `IOError` there is surfaced to the caller and out of the
claims' scope). -/
def write_empty_upload (st : RepoState) (newest_upload : Option InstaUpload)
    (cfg : Config) (now : Int) : RepoState :=
  let upload_at := next_upload_time now
    (match newest_upload with | none => none | some u => u.meta.upload_at)
    cfg.default_upload_time cfg.default_upload_delta
  let new_id := new_id_of newest_upload
  { st with
      pending := st.pending ++ [.num new_id],
      fs := fun i =>
        if i = new_id then .good ⟨"", some 0, some 0, some upload_at⟩ []
        else st.fs i }

/-- The `--new` branch of `__main__` (src/main.py lines 195-201): load
both roots, concatenate `processed + unprocessed`, take the LAST element
of the concatenation (not the maximum of the union) as the newest upload,
and write the fresh record into the pending root. -/
def new_branch (cfg : Config) (now : Int) (st : RepoState) :
    Except Err RepoState :=
  match load_all_from_parent_dir st.fs st.published with
  | .error e => .error e
  | .ok processed =>
      match load_all_from_parent_dir st.fs st.pending with
      | .error e => .error e
      | .ok unprocessed =>
          let all_posts := processed ++ unprocessed
          .ok (write_empty_upload st all_posts.getLast? cfg now)

/-- The id the "new" operation assigns, as a function of the concatenated
load result: last id plus `NEW_OFFSET`, or `0` when there are no
records. -/
def assigned_id (all_posts : List InstaUpload) : Nat :=
  new_id_of all_posts.getLast?

/-- Repeating the `--new` invocation `N` times against the same
directories. -/
def new_iter (cfg : Config) (now : Int) : Nat → RepoState → Except Err RepoState
  | 0, st => .ok st
  | n + 1, st =>
      match new_branch cfg now st with
      | .error e => .error e
      | .ok st1 => new_iter cfg now n st1

/-- Both roots empty; no record content anywhere. -/
def emptyRepo : RepoState := ⟨[], [], fun _ => .missing⟩

/-- Loading an empty listing yields the empty sequence. -/
theorem load_all_nil (fs : Nat → FsEntry) :
    load_all_from_parent_dir fs [] = .ok [] := by
  have hms : (([] : List InstaUpload).mergeSort idLe) = [] :=
    List.mergeSort_of_sorted List.Pairwise.nil
  simp [load_all_from_parent_dir, load_list, hms]

/-- Loading a listing of numeric names backed by good image-less entries
returns one record per name, in listing order. -/
theorem load_list_nums (fs : Nat → FsEntry) :
    ∀ l : List Nat, (∀ i ∈ l, ∃ m, fs i = FsEntry.good m []) →
      ∃ us, load_list fs (l.map DirName.num) = .ok us ∧
        us.map (fun u => u.id) = l := by
  intro l
  induction l with
  | nil => intro _; exact ⟨[], rfl, rfl⟩
  | cons a l ih =>
      intro h
      obtain ⟨m, hm⟩ := h a (List.mem_cons_self a l)
      obtain ⟨us, hus, hmap⟩ := ih fun i hi => h i (List.mem_cons_of_mem a hi)
      refine ⟨⟨a, m, []⟩ :: us, ?_, by simp [hmap]⟩
      simp [load_list, load_one, parseDirName, load_from_dir, hm, hus]

/-- Loading the listing `0, 1, ..., k-1` of good image-less entries
returns records whose ids are exactly `0, 1, ..., k-1` (the sort leaves
the already-ordered load untouched). -/
theorem load_all_range (fs : Nat → FsEntry) (k : Nat)
    (h : ∀ i < k, ∃ m, fs i = FsEntry.good m []) :
    ∃ us, load_all_from_parent_dir fs ((List.range k).map DirName.num) =
        .ok us ∧ us.map (fun u => u.id) = List.range k := by
  obtain ⟨us, hus, hmap⟩ :=
    load_list_nums fs (List.range k) fun i hi => h i (List.mem_range.1 hi)
  have hsort : us.Pairwise (fun a b => idLe a b = true) := by
    have h1 : List.Pairwise (fun a b => a < b) (us.map fun u => u.id) := by
      rw [hmap]; exact List.pairwise_lt_range k
    exact (List.pairwise_map.1 h1).imp fun hab => by
      simp only [idLe, decide_eq_true_eq]; omega
  exact ⟨us, by simp [load_all_from_parent_dir, hus,
    List.mergeSort_of_sorted hsort], hmap⟩

/-- The reachable shape of the repository after `k` creations from
empty: pending names `0..k-1` with good image-less entries, nothing
published. -/
def NewInv (k : Nat) (st : RepoState) : Prop :=
  st.pending = (List.range k).map DirName.num ∧ st.published = [] ∧
  ∀ i < k, ∃ m, st.fs i = FsEntry.good m []

/-- One `--new` invocation on a `k`-record repository created from empty
assigns id `k` and preserves the invariant. -/
theorem new_branch_step (cfg : Config) (now : Int) (k : Nat)
    (st : RepoState) (h : NewInv k st) :
    ∃ st2, new_branch cfg now st = .ok st2 ∧ NewInv (k + 1) st2 := by
  obtain ⟨hp, hq, hfs⟩ := h
  obtain ⟨us, hload, hmap⟩ := load_all_range st.fs k hfs
  have hpub : load_all_from_parent_dir st.fs st.published = .ok [] := by
    rw [hq]; exact load_all_nil st.fs
  have hpend : load_all_from_parent_dir st.fs st.pending = .ok us := by
    rw [hp]; exact hload
  have hid : new_id_of (([] ++ us : List InstaUpload)).getLast? = k := by
    cases k with
    | zero =>
        have h0 : us = [] := List.map_eq_nil_iff.1 (by rw [hmap]; rfl)
        rw [h0]; rfl
    | succ n =>
        have hlast : (us.map fun u => u.id).getLast? = some n := by
          rw [hmap, List.range_succ, List.getLast?_concat]
        rw [List.getLast?_map] at hlast
        obtain ⟨ul, hul, hulid⟩ := Option.map_eq_some'.1 hlast
        rw [List.nil_append, hul]
        simp [new_id_of, NEW_OFFSET, hulid]
  have hb : new_branch cfg now st =
      .ok (write_empty_upload st (([] ++ us : List InstaUpload)).getLast? cfg now) := by
    simp only [new_branch, hpub, hpend]
  refine ⟨_, hb, ?_, ?_, ?_⟩
  · simp only [write_empty_upload, hp, hid]
    rw [List.range_succ, List.map_append]
    rfl
  · simpa [write_empty_upload] using hq
  · intro i hi
    simp only [write_empty_upload, hid]
    by_cases hik : i = k
    · subst hik
      exact ⟨_, if_pos rfl⟩
    · obtain ⟨m, hm⟩ := hfs i (by omega)
      exact ⟨m, by simp [hik, hm]⟩

/-- Iterating `--new` preserves the invariant, advancing the count. -/
theorem new_iter_inv (cfg : Config) (now : Int) :
    ∀ (N k : Nat) (st : RepoState), NewInv k st →
      ∃ st2, new_iter cfg now N st = .ok st2 ∧ NewInv (k + N) st2 := by
  intro N
  induction N with
  | zero => intro k st h; exact ⟨st, rfl, by simpa using h⟩
  | succ n ih =>
      intro k st h
      obtain ⟨st1, hb, h1⟩ := new_branch_step cfg now k st h
      obtain ⟨st2, hi, h2⟩ := ih (k + 1) st1 h1
      refine ⟨st2, by simp [new_iter, hb, hi], ?_⟩
      have he : k + (n + 1) = (k + 1) + n := by omega
      rw [he]; exact h2

/-- C4 counterexample: with published holding id `5` and pending holding
id `2`, the claim demands the fresh id `max {2, 5} + 1 = 6`; the code
takes the LAST element of `processed + unprocessed` — the record with id
`2` — and assigns `2 + 1 = 3`.  The resulting pending listing is
`[2, 3]`, and `3 ≠ 6`. -/
theorem c4_counterexample :
    (new_branch ⟨0, 0, 0⟩ 0
        ⟨[.num 2], [.num 5], fun _ => .good ⟨"", none, none, some 0⟩ []⟩).map
      (fun s => s.pending) = .ok [.num 2, .num 3] ∧ (3 : Nat) ≠ 5 + 1 := by
  have h1 : load_all_from_parent_dir
      (fun _ => FsEntry.good ⟨"", none, none, some 0⟩ ([] : List String))
      [.num 5] = .ok [⟨5, ⟨"", none, none, some 0⟩, []⟩] :=
    load_all_singleton _ 5 ⟨"", none, none, some 0⟩ [] rfl
  have h2 : load_all_from_parent_dir
      (fun _ => FsEntry.good ⟨"", none, none, some 0⟩ ([] : List String))
      [.num 2] = .ok [⟨2, ⟨"", none, none, some 0⟩, []⟩] :=
    load_all_singleton _ 2 ⟨"", none, none, some 0⟩ [] rfl
  exact ⟨by simp [new_branch, h1, h2, write_empty_upload, new_id_of,
    NEW_OFFSET, Except.map], by decide⟩

/-- C4 amended: the "new" operation assigns the created record the id of
the LAST element of the concatenation (loaded published ++ loaded
pending) plus one, or `0` when both are empty — because each loaded half
is id-sorted this is one plus the greatest PENDING id whenever pending is
non-empty (the published ids are then ignored), not the maximum over the
union; consequently creating `N` empty records in sequence starting from
empty still yields ids `0, 1, ..., N-1`. -/
theorem c4_id_assignment :
    (∀ (cfg : Config) (now : Int) (st : RepoState)
        (processed unprocessed : List InstaUpload),
      load_all_from_parent_dir st.fs st.published = .ok processed →
      load_all_from_parent_dir st.fs st.pending = .ok unprocessed →
      ∃ st2, new_branch cfg now st = .ok st2 ∧
        st2.pending = st.pending ++
          [.num (assigned_id (processed ++ unprocessed))] ∧
        (unprocessed ≠ [] →
          assigned_id (processed ++ unprocessed) = assigned_id unprocessed)) ∧
    (∀ (cfg : Config) (now : Int) (N : Nat),
      ∃ st2, new_iter cfg now N emptyRepo = .ok st2 ∧
        st2.pending = (List.range N).map DirName.num) := by
  constructor
  · intro cfg now st processed unprocessed h1 h2
    have hb : new_branch cfg now st =
        .ok (write_empty_upload st ((processed ++ unprocessed)).getLast? cfg now) := by
      simp only [new_branch, h1, h2]
    refine ⟨_, hb, ?_, ?_⟩
    · simp only [write_empty_upload, assigned_id]
    · intro hne
      obtain ⟨x, hx⟩ :=
        Option.isSome_iff_exists.1 (List.getLast?_isSome.2 hne)
      rw [assigned_id, assigned_id, List.getLast?_append, hx]
      simp
  · intro cfg now N
    obtain ⟨st2, hi, hinv⟩ := new_iter_inv cfg now N 0 emptyRepo
      ⟨rfl, rfl, fun i hi => absurd hi (Nat.not_lt_zero i)⟩
    exact ⟨st2, hi, by simpa using hinv.1⟩

/-- Witness for `c4_id_assignment` on the empty repository: the first
created record receives id `0`. -/
theorem c4_witness :
    ∃ st2, new_branch ⟨0, 0, 0⟩ 0 emptyRepo = .ok st2 ∧
      st2.pending = emptyRepo.pending ++
        [.num (assigned_id (([] : List InstaUpload) ++ []))] ∧
      (([] : List InstaUpload) ≠ [] →
        assigned_id (([] : List InstaUpload) ++ []) =
          assigned_id ([] : List InstaUpload)) :=
  c4_id_assignment.1 ⟨0, 0, 0⟩ 0 emptyRepo [] []
    (load_all_nil emptyRepo.fs) (load_all_nil emptyRepo.fs)

end Delayedgram
